import Mathlib

/-!
Verification of the semantic similarity search and ranking subsystem of the
TestTriage repository: a shallow embedding of
`src/tools/test_analysis_tools.py::search_similar_jira_issues`,
`src/jira_sync_to_chroma.py::sync_to_chromadb` and
`src/jira_sync_to_chroma.py::_normalize_description`, together with theorems
about the embedded definitions.

Modelling conventions:
  * Python floats are modelled as `ℚ` (all constants involved are exact
    decimals, and no claim depends on floating-point rounding).
  * The external collaborators (ChromaDB client, Google embedding API) are
    modelled as an environment record whose fields are `Except String`
    values: `.error e` models the call raising an exception with message
    `str(e) = e`, `.ok v` models it returning `v`.  The vector index's
    query result is modelled as one list of aligned entries, matching the
    ChromaDB API contract that `ids`, `distances`, `metadatas`, `documents`
    are parallel lists.
  * Python's `try/except Exception` wrapper is modelled by running the body
    in `Except String` and mapping `.error e` to the error string the code
    builds.
-/

set_option maxHeartbeats 1000000

deriving instance DecidableEq for Except

namespace TestTriage

/-! ### Metadata and query entries

`Meta` models the ChromaDB metadata dictionary of one stored issue.  The code
reads every field with `dict.get(key, default)`, so each field is an
`Option String` and every read point applies the code's default.  -/

structure Meta where
  key : Option String
  summary : Option String
  status : Option String
  issuetype : Option String
  priority : Option String
  resolution : Option String
  created : Option String
  updated : Option String
  url : Option String
  labels : Option String
  components : Option String
deriving DecidableEq

/-- One retrieved neighbour of the query: an aligned row of the
`ids / distances / metadatas / documents` lists returned by
`collection.query`. -/
structure Entry where
  id : String
  distance : ℚ
  meta : Meta
  document : String
deriving DecidableEq

/-- The arguments of `search_similar_jira_issues`.  `test_name` and
`error_message` default to `None` in the source, hence `Option String`;
`top_k` is a Python int, `similarity_threshold` a Python float. -/
structure SearchArgs where
  failure_description : String
  test_name : Option String
  error_message : Option String
  top_k : ℤ
  similarity_threshold : ℚ

/-- Behaviour of the external collaborators during one call.
`resources` models `_get_chroma_resources()`, `countResult` models
`collection.count()`, `embedResult` models `genai.embed_content` applied to
the composed search query (the embedding vector itself is irrelevant to the
result structure, the index's answer is `queryResult`), and `queryResult`
models `collection.query(...)` with its aligned result lists. -/
structure SearchEnv where
  resources : Except String Unit
  countResult : Except String ℕ
  embedResult : String → Except String Unit
  queryResult : Except String (List Entry)

/-- `top_k = min(max(1, top_k), 2)` (line 596). -/
def clampTopK (k : ℤ) : ℤ := min (max 1 k) 2

/-- `similarity_threshold = max(0.0, min(1.0, similarity_threshold))`
(line 599). -/
def clampThreshold (t : ℚ) : ℚ := max 0 (min 1 t)

/-- Query composition (lines 601-614): error message first, then failure
description, then test name, each as a labelled line; a `None` or empty
optional component is skipped (Python truthiness). -/
def searchQuery (args : SearchArgs) : String :=
  let errComp : List String :=
    match args.error_message with
    | some em => if em = "" then [] else ["Error Message: " ++ em]
    | none => []
  let nameComp : List String :=
    match args.test_name with
    | some tn => if tn = "" then [] else ["Test Name: " ++ tn]
    | none => []
  String.intercalate ("\n")
    (errComp ++ ["Failure Description: " ++ args.failure_description] ++ nameComp)

/-- `similarities = [1 - (dist / 2) for dist in distances]` (line 642). -/
def simOfDist (d : ℚ) : ℚ := 1 - d / 2

/-- `status = metadatas[i].get('status', '').lower()`;
`is_open = status not in ['closed', 'resolved', 'done']` (lines 648-650). -/
def isOpenMeta (m : Meta) : Bool :=
  !(["closed", "resolved", "done"].contains ((m.status.getD ("")).toLower))

/-- One element of `filtered_results` (lines 651-657): the dict
`{'key': ids[i], 'similarity': ..., 'metadata': ..., 'document': ...,
'is_open': ...}`. -/
structure FR where
  key : String
  similarity : ℚ
  meta : Meta
  document : String
  is_open : Bool
deriving DecidableEq

/-- Builds the candidate record of one retrieved entry. -/
def mkFR (e : Entry) : FR :=
  ⟨e.id, simOfDist e.distance, e.meta, e.document, isOpenMeta e.meta⟩

def candidatesOf (entries : List Entry) : List FR := entries.map mkFR

/-- Threshold filter (lines 644-657): keep candidates with
`similarity >= similarity_threshold`. -/
def filteredOf (thr : ℚ) (entries : List Entry) : List FR :=
  (candidatesOf entries).filter fun c => decide (thr ≤ c.similarity)

/-- `OPEN_ISSUE_BOOST = 0.10` (line 674). -/
def OPEN_ISSUE_BOOST : ℚ := 1 / 10

/-- The sort key (line 676): Python sorts ascending by
`-(similarity + boost)`, i.e. descending by `similarity + boost`. -/
def adjScore (c : FR) : ℚ :=
  c.similarity + (if c.is_open then OPEN_ISSUE_BOOST else 0)

/-- The order relation of the descending weighted sort:
`a` may precede `b` iff `adjScore b ≤ adjScore a`. -/
def sortRel (a b : FR) : Prop := adjScore b ≤ adjScore a

instance : DecidableRel sortRel := fun a b =>
  inferInstanceAs (Decidable (adjScore b ≤ adjScore a))

instance : IsTotal FR sortRel :=
  ⟨fun a b => le_total (adjScore b) (adjScore a)⟩

instance : IsTrans FR sortRel :=
  ⟨fun _ _ _ hab hbc => le_trans hbc hab⟩

/-- `filtered_results.sort(key=lambda x: -(x['similarity'] + ...))`
(lines 675-677).  Python's `list.sort` is a stable sort; insertion sort is
stable, so it models it exactly. -/
def sortFR (l : List FR) : List FR := l.insertionSort sortRel

/-- `best_idx = similarities.index(max(similarities))` (line 662): the first
candidate achieving the maximal similarity (ties broken towards the earlier
element, as `list.index` returns the first occurrence). -/
def bestCand : List FR → Option FR
  | [] => none
  | c :: rest =>
    match bestCand rest with
    | none => some c
    | some b => some (if b.similarity ≤ c.similarity then c else b)

/-- The structurally distinct results of a successful (non-raising) run of
the tool body:
  * `emptyCorpus`: `collection.count() == 0` (lines 591-593);
  * `noResults`: the index returned no ids at all (lines 631-632, 668);
  * `belowThreshold b`: no candidate met the threshold, `b` is the best
    candidate reported as diagnostic (lines 659-667);
  * `matchesFound rs`: the ranked, truncated result list (lines 670-742). -/
inductive SearchOutcome where
  | emptyCorpus
  | noResults
  | belowThreshold (best : FR)
  | matchesFound (results : List FR)
deriving DecidableEq

/-- Lines 630-680: result processing after the index query, producing the
structured outcome. `tk` and `thr` are the already-clamped parameters. -/
def searchCore (tk : ℤ) (thr : ℚ) (entries : List Entry) : SearchOutcome :=
  if entries = [] then .noResults
  else if filteredOf thr entries = [] then
    match bestCand (candidatesOf entries) with
    | some b => .belowThreshold b
    | none => .noResults
  else
    .matchesFound ((sortFR (filteredOf thr entries)).take tk.toNat)

/-- The body of the `try:` block (lines 586-742), with each collaborator
call able to raise (`Except.error`).  Mirrors the source's control flow:
resources, count (with the empty-corpus early return), embedding of the
composed query, index query, then pure result processing. -/
def searchInner (env : SearchEnv) (args : SearchArgs) :
    Except String SearchOutcome :=
  match env.resources with
  | .error e => .error e
  | .ok _ =>
    match env.countResult with
    | .error e => .error e
    | .ok cnt =>
      if cnt = 0 then .ok .emptyCorpus
      else
        match env.embedResult (searchQuery args) with
        | .error e => .error e
        | .ok _ =>
          match env.queryResult with
          | .error e => .error e
          | .ok entries =>
            .ok (searchCore (clampTopK args.top_k)
                  (clampThreshold args.similarity_threshold) entries)

/-! ### Rendering the outcome to the returned text -/

/-- Lines 592-593 (the two adjacent string literals concatenate). -/
def emptyCorpusMsg : String :=
  "No Jira issues found in the database. Please run jira_sync_to_chroma.py to populate the database with existing issues."

/-- Lines 632 and 668. -/
def noResultsMsg : String := "No similar issues found in the database."

/-- Models Python `f"{q:.1f}"` for the (rational) values rendered by the
tool; exact tie-rounding of binary floats is not claim-relevant. -/
def fmtTenths (q : ℚ) : String :=
  let n : ℤ := round (q * 10)
  toString (n / 10) ++ "." ++ toString (n % 10)

/-- Models Python `f"{q:.0f}"`. -/
def fmtUnits (q : ℚ) : String := toString (round q)

/-- Models Python `f"{q:.2f}"`. -/
def fmtHundredths (q : ℚ) : String :=
  let n : ℤ := round (q * 100)
  toString (n / 100) ++ "." ++
    (if n % 100 < 10 then "0" ++ toString (n % 100) else toString (n % 100))

/-- Lines 666-667: the below-threshold diagnostic, naming the best
candidate's metadata key, similarity percentage and truncated summary. -/
def belowThresholdMsg (thr : ℚ) (b : FR) : String :=
  "No similar issues found with similarity >= " ++ fmtUnits (thr * 100) ++
  "%. Closest match: " ++ b.meta.key.getD ("N/A") ++ " (" ++
  fmtTenths (b.similarity * 100) ++ "%) - \"" ++
  (b.meta.summary.getD ("N/A")).take 80 ++ "...\""

/-- The three qualitative recommendation bands of lines 726-740. -/
inductive RecBand where
  | nearIdentical
  | highSim
  | moderate
deriving DecidableEq

/-- Lines 723-740: `best_similarity = best_match['similarity'] * 100`;
`if best_similarity >= 90: ... elif best_similarity >= 80: ... else: ...`.
The raw (unboosted) similarity of the first listed result drives the band. -/
def bandOf (sim : ℚ) : RecBand :=
  if 90 ≤ sim * 100 then .nearIdentical
  else if 80 ≤ sim * 100 then .highSim
  else .moderate

/-- `best_match = filtered_results[0]` (line 723).  The `[]` case is
unreachable: the matches branch always carries a non-empty list. -/
def chosenBand : List FR → RecBand
  | [] => .moderate
  | hd :: _ => bandOf hd.similarity

def btick : Char := Char.ofNat 96

/-- `'█' * bar_length + '░' * (10 - bar_length)` with
`bar_length = int(similarity_pct / 10)` (lines 700-701); Python's negative
string repetition yields `""`, matching truncated `ℕ` subtraction. -/
def simBar (pct : ℚ) : String :=
  let n : ℕ := (⌊pct / 10⌋ : ℤ).toNat
  String.mk (List.replicate n '█' ++ List.replicate (10 - n) '░')

def eqLine : String := String.mk (List.replicate 70 '=')

/-- Lines 689-717: the per-issue block (leading and trailing newline come
from the triple-quoted f-string). -/
def issueBlock (i : ℕ) (r : FR) : String :=
  let pct := r.similarity * 100
  let statusInd := if r.is_open then "🔴 OPEN" else "🟢 CLOSED"
  "\n" ++ eqLine ++ "\n" ++
  "#" ++ toString i ++ " - " ++ r.meta.key.getD ("N/A") ++ " [" ++ statusInd ++
  "] (" ++ fmtTenths pct ++ "% match) " ++ simBar pct ++ "\n" ++
  eqLine ++ "\n" ++
  "Summary: " ++ r.meta.summary.getD ("N/A") ++ "\n" ++
  "Status: " ++ r.meta.status.getD ("N/A") ++ " | Type: " ++
  r.meta.issuetype.getD ("N/A") ++ " | Priority: " ++
  r.meta.priority.getD ("N/A") ++ "\n" ++
  "Resolution: " ++ r.meta.resolution.getD ("Unresolved") ++ "\n" ++
  "Created: " ++ (r.meta.created.getD ("N/A")).take 10 ++ " | Updated: " ++
  (r.meta.updated.getD ("N/A")).take 10 ++ "\n" ++
  "URL: " ++ r.meta.url.getD ("N/A") ++ "\n"

/-- Lines 726-740: the two recommendation lines of the selected band
(`best_match['key']` is the candidate's id field, not the metadata key). -/
def bandLines (best : FR) : List String :=
  let pctTxt := fmtTenths (best.similarity * 100)
  match chosenBand [best] with
  | .nearIdentical =>
    ["   • Very high similarity (" ++ pctTxt ++ "%) - This appears to be the same or nearly identical issue.",
     "   • Consider updating issue " ++ best.key ++ " instead of creating a new one."]
  | .highSim =>
    ["   • High similarity (" ++ pctTxt ++ "%) - Review " ++ best.key ++ " before creating a new issue.",
     "   • The root cause may be related or identical."]
  | .moderate =>
    ["   • Moderate similarity (" ++ pctTxt ++ "%) - Related issues exist but may not be identical.",
     "   • Review these issues for context, but a new issue may be warranted."]

/-- Lines 682-742: success formatting of the ranked results. -/
def renderMatches (thr : ℚ) (rs : List FR) : String :=
  let header :=
    ["Found " ++ toString rs.length ++ " similar issue(s) based on semantic analysis:",
     "(Showing issues with similarity >= " ++ fmtHundredths thr ++ ")",
     ""]
  let blocks := rs.enum.map fun p => issueBlock (p.1 + 1) p.2
  let tail :=
    match rs with
    | [] => []
    | best :: _ => ["", "💡 Recommendation:"] ++ bandLines best
  String.intercalate ("\n") (header ++ blocks ++ tail)

def render (thr : ℚ) : SearchOutcome → String
  | .emptyCorpus => emptyCorpusMsg
  | .noResults => noResultsMsg
  | .belowThreshold b => belowThresholdMsg thr b
  | .matchesFound rs => renderMatches thr rs

/-- The exposed tool (lines 560-745): run the body; any raised error is
caught and returned as the descriptive error string of line 745. -/
def search_similar_jira_issues (env : SearchEnv) (args : SearchArgs) : String :=
  match searchInner env args with
  | .ok oc => render (clampThreshold args.similarity_threshold) oc
  | .error e => "Error searching for similar Jira issues: " ++ e

/-! ### Corpus synchronizer (`src/jira_sync_to_chroma.py::sync_to_chromadb`)

The issue dictionaries produced by `_extract_issue_data` (lines 199-212):
all fields are present there, so plain `String` / `List String`. -/

structure SyncIssue where
  key : String
  summary : String
  description : String
  status : String
  issuetype : String
  created : String
  updated : String
  labels : List String
  components : List String
  resolution : String
  priority : String
  url : String
deriving DecidableEq

/-- Models `json.dumps` on a list of strings (default separators); escaping
of special characters inside the strings is not modelled, no claim depends
on it. -/
def jsonDumpsList (xs : List String) : String :=
  "[" ++ String.intercalate (", ") (xs.map fun s => "\"" ++ s ++ "\"") ++ "]"

/-- `_create_searchable_text` (lines 216-238). -/
def create_searchable_text (i : SyncIssue) : String :=
  String.intercalate ("\n")
    ["Summary: " ++ i.summary,
     "Description: " ++ i.description,
     "Type: " ++ i.issuetype,
     "Status: " ++ i.status,
     "Priority: " ++ i.priority,
     "Components: " ++ String.intercalate (", ") i.components,
     "Labels: " ++ String.intercalate (", ") i.labels]

/-- The metadata dictionary built per issue (lines 261-277). -/
structure SyncMeta where
  key : String
  summary : String
  description : String
  status : String
  issuetype : String
  created : String
  updated : String
  resolution : String
  priority : String
  url : String
  labels : String
  components : String
deriving DecidableEq

def syncMetaOf (i : SyncIssue) : SyncMeta :=
  ⟨i.key, i.summary, i.description, i.status, i.issuetype, i.created,
   i.updated, i.resolution, i.priority, i.url,
   jsonDumpsList i.labels, jsonDumpsList i.components⟩

/-- One stored row of the vector index: embedding, document, metadata. -/
structure IndexRecord where
  embedding : List ℚ
  document : String
  meta : SyncMeta
deriving DecidableEq

/-- The collection contents, keyed by issue id. -/
abbrev ChromaIndex := List (String × IndexRecord)

/-- Keyed upsert: if the id exists, fully replace the stored record;
otherwise insert (last-write-wins per key). -/
def upsertOne (idx : ChromaIndex) (kv : String × IndexRecord) : ChromaIndex :=
  if (idx.map Prod.fst).contains kv.1 then
    idx.map fun p => if p.1 = kv.1 then kv else p
  else idx ++ [kv]

/-- Behaviour of the collaborators during one sync run: `embedVec` is the
deterministic embedding the provider returns per document (the batched call
returns one vector per document), `embedErr b` / `upsertErr b` model the
batch-`b` embedding call / upsert call raising with the given message. -/
structure SyncEnv where
  embedVec : String → List ℚ
  embedErr : ℕ → Option String
  upsertErr : ℕ → Option String

/-- The observable calls issued to the collaborators. -/
inductive SyncOp where
  | embedCall (docs : List String)
  | upsertCall (ids : List String)
deriving DecidableEq

/-- The rows a successful batch writes: ids, embeddings, documents,
metadatas of lines 258-294, aligned per issue. -/
def batchRecords (env : SyncEnv) (batch : List SyncIssue) :
    List (String × IndexRecord) :=
  batch.map fun i =>
    (i.key,
     ⟨env.embedVec (create_searchable_text i), create_searchable_text i,
      syncMetaOf i⟩)

/-- A whole batch committed to the index (one `collection.upsert` call). -/
def applyBatch (env : SyncEnv) (idx : ChromaIndex) (batch : List SyncIssue) :
    ChromaIndex :=
  (batchRecords env batch).foldl upsertOne idx

/-- `issues[i:i + batch_size]` for `i in range(0, len(issues), batch_size)`
(lines 255-256), for a positive step; `bs = 0` (a `ValueError` in Python)
is mapped to no batches. -/
def chunksOf (bs : ℕ) : List SyncIssue → List (List SyncIssue)
  | [] => []
  | x :: xs =>
    if _h : bs = 0 then []
    else (x :: xs).take bs :: chunksOf bs ((x :: xs).drop bs)
termination_by l => l.length
decreasing_by
  simp only [List.length_drop, List.length_cons]
  omega

/-- The outcome of a sync run: the final index contents, the propagated
exception (if any), and the trace of collaborator calls issued. -/
structure SyncResult where
  index : ChromaIndex
  err : Option String
  ops : List SyncOp
deriving DecidableEq

/-- The batch loop of lines 255-296: per batch, one batched embedding call
(which may raise, aborting the run with the index unchanged), then one
upsert call (which may raise likewise); on success the whole batch is
committed and the loop continues. -/
def runBatches (env : SyncEnv) :
    ℕ → List (List SyncIssue) → ChromaIndex → SyncResult
  | _, [], idx => ⟨idx, none, []⟩
  | bn, batch :: rest, idx =>
    let docs := batch.map create_searchable_text
    match env.embedErr bn with
    | some e => ⟨idx, some e, [.embedCall docs]⟩
    | none =>
      match env.upsertErr bn with
      | some e => ⟨idx, some e, [.embedCall docs, .upsertCall (batch.map (·.key))]⟩
      | none =>
        let r := runBatches env (bn + 1) rest (applyBatch env idx batch)
        ⟨r.index, r.err,
         .embedCall docs :: .upsertCall (batch.map (·.key)) :: r.ops⟩

/-- `sync_to_chromadb` (lines 240-298): empty input returns immediately
(lines 248-250) touching nothing; otherwise the batch loop runs on the
fixed-size chunks of the input. -/
def sync_to_chromadb (env : SyncEnv) (issues : List SyncIssue) (bs : ℕ)
    (idx : ChromaIndex) : SyncResult :=
  if issues = [] then ⟨idx, none, []⟩
  else runBatches env 0 (chunksOf bs issues) idx

/-! ### Description normalization
(`src/jira_sync_to_chroma.py::_normalize_description`, lines 126-169)

Text is modelled as `List Char`.  Each `str.replace` / `re.sub` of the
source becomes one pass below, applied in the source's order.  `re.sub`
scans left to right, replaces the leftmost match, and resumes scanning
after the replaced text, which is exactly what the recursions implement. -/

/-- Python `\s` / `str.strip()` whitespace, restricted to the ASCII
whitespace characters plus the non-breaking space (the only whitespace this
pipeline can encounter after its own substitutions). -/
def wsChars : List Char := [' ', '\t', '\n', '\r', '\x0b', '\x0c', '\xa0']

def isWs (c : Char) : Bool := wsChars.contains c

/-- `description.replace('\r\n', '\n')` (line 141): leftmost-first,
non-overlapping, resuming after each replacement. -/
def crlfPass : List Char → List Char
  | [] => []
  | [c] => [c]
  | a :: b :: xs =>
    if a = '\r' ∧ b = '\n' then '\n' :: crlfPass xs
    else a :: crlfPass (b :: xs)

/-- `text.replace('\xa0', ' ')` (line 144). -/
def nbspPass (l : List Char) : List Char :=
  l.map fun c => if c = '\xa0' then ' ' else c

def headerDigits : List Char := ['1', '2', '3', '4', '5', '6']

/-- Whether `re.sub(r'h[1-6]\.\s*', ...)` matches at the head. -/
def isHeaderStart : List Char → Bool
  | c :: d :: e :: _ => c = 'h' && headerDigits.contains d && e = '.'
  | _ => false

/-- `re.sub(r'h[1-6]\.\s*', '', text)` (line 148): delete the marker and
the greedy run of following whitespace, resume after it; otherwise advance
one character. -/
def headerPass : List Char → List Char
  | [] => []
  | c :: xs =>
    if isHeaderStart (c :: xs) then headerPass ((xs.drop 2).dropWhile isWs)
    else c :: headerPass xs
termination_by l => l.length
decreasing_by
  · have h1 : ((xs.drop 2).dropWhile isWs).length ≤ (xs.drop 2).length :=
      (xs.drop 2).dropWhile_sublist isWs |>.length_le
    have h2 : (xs.drop 2).length ≤ xs.length := by
      simp [List.length_drop]
    simp only [List.length_cons]
    omega
  · simp

/-- Whether `re.sub(r'\{code:[^}]+\}', ...)` matches at the head: the
literal opener, then a non-empty greedy run of non-`\x7d` characters, then
the closing brace. -/
def code1Match (l : List Char) : Bool :=
  decide (l.take 6 = ['\x7b', 'c', 'o', 'd', 'e', ':']) &&
  (let ys := l.drop 6
   decide (ys.takeWhile (fun c => c ≠ '\x7d') ≠ []) && ys.contains '\x7d')

/-- The replacement text `'\n\x60\x60\x60\n'` of lines 152-153. -/
def fenceRepl : List Char := ['\n', btick, btick, btick, '\n']

/-- `re.sub(r'\{code:[^}]+\}', '\n\x60\x60\x60\n', text)` (line 152). -/
def code1Pass : List Char → List Char
  | [] => []
  | c :: xs =>
    if code1Match (c :: xs) then
      fenceRepl ++
        code1Pass ((((c :: xs).drop 6).dropWhile (fun ch => ch ≠ '\x7d')).drop 1)
    else c :: code1Pass xs
termination_by l => l.length
decreasing_by
  · have h1 : ((((c :: xs).drop 6).dropWhile (fun ch => ch ≠ '\x7d')).drop 1).length
        ≤ (((c :: xs).drop 6).dropWhile (fun ch => ch ≠ '\x7d')).length := by
      simp [List.length_drop]
    have h2 : (((c :: xs).drop 6).dropWhile (fun ch => ch ≠ '\x7d')).length
        ≤ ((c :: xs).drop 6).length :=
      ((c :: xs).drop 6).dropWhile_sublist _ |>.length_le
    have h3 : ((c :: xs).drop 6).length ≤ xs.length := by
      simp [List.length_drop, List.length_cons]
    simp only [List.length_cons]
    omega
  · simp

/-- `re.sub(r'\{code\}', '\n\x60\x60\x60\n', text)` (line 153). -/
def code2Pass : List Char → List Char
  | [] => []
  | c :: xs =>
    if decide ((c :: xs).take 6 = ['\x7b', 'c', 'o', 'd', 'e', '\x7d']) then
      fenceRepl ++ code2Pass ((c :: xs).drop 6)
    else c :: code2Pass xs
termination_by l => l.length
decreasing_by
  · have h3 : ((c :: xs).drop 6).length ≤ xs.length := by
      simp [List.length_drop, List.length_cons]
    simp only [List.length_cons]
    omega
  · simp

/-- `re.sub(r'\{quote\}', '\n> ', text)` (line 156). -/
def quotePass : List Char → List Char
  | [] => []
  | c :: xs =>
    if decide ((c :: xs).take 7 = ['\x7b', 'q', 'u', 'o', 't', 'e', '\x7d']) then
      '\n' :: '>' :: ' ' :: quotePass ((c :: xs).drop 7)
    else c :: quotePass xs
termination_by l => l.length
decreasing_by
  · have h3 : ((c :: xs).drop 7).length ≤ xs.length := by
      simp [List.length_drop, List.length_cons]
    simp only [List.length_cons]
    omega
  · simp

/-- `re.sub(r'\{noformat\}', '\n', text)` (line 157). -/
def noformatPass : List Char → List Char
  | [] => []
  | c :: xs =>
    if decide ((c :: xs).take 10
        = ['\x7b', 'n', 'o', 'f', 'o', 'r', 'm', 'a', 't', '\x7d']) then
      '\n' :: noformatPass ((c :: xs).drop 10)
    else c :: noformatPass xs
termination_by l => l.length
decreasing_by
  · have h3 : ((c :: xs).drop 10).length ≤ xs.length := by
      simp [List.length_drop, List.length_cons]
    simp only [List.length_cons]
    omega
  · simp

/-- `re.sub(r' +', ' ', text)` (line 161): each maximal run of spaces
collapses to a single space. -/
def spacePass : List Char → List Char
  | [] => []
  | [c] => [c]
  | a :: b :: xs =>
    if a = ' ' ∧ b = ' ' then spacePass (b :: xs)
    else a :: spacePass (b :: xs)

/-- `re.sub(r'\n{3,}', '\n\n', text)` (line 164): each maximal run of three
or more newlines collapses to exactly two. -/
def nlPass : List Char → List Char
  | [] => []
  | [a] => [a]
  | [a, b] => [a, b]
  | a :: b :: c :: xs =>
    if a = '\n' ∧ b = '\n' ∧ c = '\n' then nlPass (b :: c :: xs)
    else a :: nlPass (b :: c :: xs)

/-- `text.strip()` (line 167). -/
def stripPass (l : List Char) : List Char :=
  ((l.dropWhile isWs).reverse.dropWhile isWs).reverse

/-- `_normalize_description` (lines 126-169): the guard of line 137 then
the ten passes in source order. -/
def normalizeDescription (l : List Char) : List Char :=
  if l = [] then []
  else
    stripPass (nlPass (spacePass (noformatPass (quotePass (code2Pass
      (code1Pass (headerPass (nbspPass (crlfPass l)))))))))

/-! ### Infrastructure for the normalization proofs -/

/-- `hasPair a b l` holds iff `l` contains `a` immediately followed by `b`. -/
def hasPair (a b : Char) : List Char → Bool
  | x :: y :: rest => (decide (x = a) && decide (y = b)) || hasPair a b (y :: rest)
  | _ => false

/-- `hasTriple a l` holds iff `l` contains three adjacent copies of `a`. -/
def hasTriple (a : Char) : List Char → Bool
  | x :: y :: z :: rest =>
    (decide (x = a) && decide (y = a) && decide (z = a)) || hasTriple a (y :: z :: rest)
  | _ => false

theorem hasPair_cons (a b x : Char) (l : List Char) :
    hasPair a b (x :: l) =
      ((decide (x = a) && decide (l.head? = some b)) || hasPair a b l) := by
  cases l with
  | nil => simp [hasPair]
  | cons y rest => simp [hasPair]

theorem hasTriple_cons (a x : Char) (l : List Char) :
    hasTriple a (x :: l) =
      ((decide (x = a) && decide (l.take 2 = [a, a])) || hasTriple a l) := by
  cases l with
  | nil =>
    simp [show hasTriple a [x] = false from rfl,
          show hasTriple a [] = false from rfl]
  | cons y rest =>
    cases rest with
    | nil =>
      simp [show hasTriple a [x, y] = false from rfl,
            show hasTriple a [y] = false from rfl]
    | cons z rest =>
      show ((decide (x = a) && decide (y = a) && decide (z = a))
          || hasTriple a (y :: z :: rest)) = _
      simp [Bool.and_assoc]

theorem hasPair_append_left (a b : Char) (t : List Char) :
    ∀ l, hasPair a b l = true → hasPair a b (l ++ t) = true := by
  intro l
  induction l with
  | nil => intro h; exact absurd h (by simp [hasPair])
  | cons x l ih =>
    intro h
    rw [hasPair_cons] at h
    rcases Bool.or_eq_true _ _ |>.mp h with h1 | h2
    · rw [Bool.and_eq_true, decide_eq_true_eq, decide_eq_true_eq] at h1
      obtain ⟨hx, hh⟩ := h1
      cases l with
      | nil => simp at hh
      | cons y l2 =>
        simp only [List.head?_cons, Option.some.injEq] at hh
        subst hx; subst hh
        simp [hasPair]
    · rw [List.cons_append, hasPair_cons, ih h2, Bool.or_true]

theorem hasPair_append_right (a b : Char) (l : List Char) :
    ∀ s, hasPair a b l = true → hasPair a b (s ++ l) = true := by
  intro s h
  induction s with
  | nil => simpa
  | cons x s ih => rw [List.cons_append, hasPair_cons, ih, Bool.or_true]

theorem hasPair_mono_part {a b : Char} {m l : List Char} (hinf : m <:+: l)
    (h : hasPair a b m = true) : hasPair a b l = true := by
  obtain ⟨s, t, rfl⟩ := hinf
  rw [List.append_assoc]
  exact hasPair_append_right a b _ s (hasPair_append_left a b t m h)

theorem hasTriple_append_left (a : Char) (t : List Char) :
    ∀ l, hasTriple a l = true → hasTriple a (l ++ t) = true := by
  intro l
  induction l with
  | nil => intro h; exact absurd h (by simp [hasTriple])
  | cons x l ih =>
    intro h
    rw [hasTriple_cons] at h
    rcases Bool.or_eq_true _ _ |>.mp h with h1 | h2
    · rw [Bool.and_eq_true, decide_eq_true_eq, decide_eq_true_eq] at h1
      obtain ⟨hx, hh⟩ := h1
      subst hx
      cases l with
      | nil => simp at hh
      | cons y l2 =>
        cases l2 with
        | nil =>
          have ht : ([y] : List Char).take 2 = [y] := rfl
          rw [ht] at hh
          exact absurd hh (by simp)
        | cons z l3 =>
          have ht : (y :: z :: l3).take 2 = [y, z] := rfl
          rw [ht] at hh
          injection hh with hy hh2
          injection hh2 with hz _
          subst hy; subst hz
          simp [hasTriple]
    · rw [List.cons_append, hasTriple_cons, ih h2, Bool.or_true]

theorem hasTriple_append_right (a : Char) (l : List Char) :
    ∀ s, hasTriple a l = true → hasTriple a (s ++ l) = true := by
  intro s h
  induction s with
  | nil => simpa
  | cons x s ih => rw [List.cons_append, hasTriple_cons, ih, Bool.or_true]

theorem hasTriple_mono_part {a : Char} {m l : List Char} (hinf : m <:+: l)
    (h : hasTriple a m = true) : hasTriple a l = true := by
  obtain ⟨s, t, rfl⟩ := hinf
  rw [List.append_assoc]
  exact hasTriple_append_right a _ s (hasTriple_append_left a t m h)

theorem hasPair_tail {a b x : Char} {l : List Char}
    (h : hasPair a b (x :: l) = false) : hasPair a b l = false := by
  rw [hasPair_cons, Bool.or_eq_false_iff] at h
  exact h.2

theorem hasTriple_tail {a x : Char} {l : List Char}
    (h : hasTriple a (x :: l) = false) : hasTriple a l = false := by
  rw [hasTriple_cons, Bool.or_eq_false_iff] at h
  exact h.2

/-! ### Per-pass lemmas: character membership and identity conditions -/

theorem mem_crlfPass {c : Char} : ∀ {l : List Char}, c ∈ crlfPass l → c ∈ l := by
  intro l
  induction l using crlfPass.induct with
  | case1 => simp [crlfPass]
  | case2 d => simp [crlfPass]
  | case3 a b xs hab ih =>
    intro hm
    rw [crlfPass, if_pos hab] at hm
    rcases List.mem_cons.mp hm with h | h
    · exact h ▸ hab.2 ▸ List.mem_cons_of_mem a (List.mem_cons_self b xs)
    · exact List.mem_cons_of_mem a (List.mem_cons_of_mem b (ih h))
  | case4 a b xs hab ih =>
    intro hm
    rcases List.mem_cons.mp (by rwa [crlfPass, if_neg hab] at hm) with h | h
    · exact h ▸ List.mem_cons_self a _
    · exact List.mem_cons_of_mem a (ih h)

theorem crlfPass_id : ∀ {l : List Char}, '\r' ∉ l → crlfPass l = l := by
  intro l h
  induction l using crlfPass.induct with
  | case1 => rfl
  | case2 c => rfl
  | case3 a b xs hab ih =>
    exact absurd (hab.1 ▸ List.mem_cons_self a _) h
  | case4 a b xs hab ih =>
    rw [crlfPass, if_neg hab, ih (fun hm => h (List.mem_cons_of_mem a hm))]

theorem mem_nbspPass {c : Char} {l : List Char} (h : c ∈ nbspPass l) :
    c ∈ l ∨ c = ' ' := by
  obtain ⟨x, hx, hfx⟩ := List.mem_map.mp h
  by_cases hxa : x = '\xa0'
  · rw [if_pos hxa] at hfx
    exact Or.inr hfx.symm
  · rw [if_neg hxa] at hfx
    exact Or.inl (hfx ▸ hx)

theorem nbspPass_no_nbsp {l : List Char} : '\xa0' ∉ nbspPass l := by
  intro h
  obtain ⟨x, _, hfx⟩ := List.mem_map.mp h
  by_cases hxa : x = '\xa0'
  · rw [if_pos hxa] at hfx
    exact absurd hfx (by decide)
  · rw [if_neg hxa] at hfx
    exact hxa hfx

theorem nbspPass_id : ∀ {l : List Char}, '\xa0' ∉ l → nbspPass l = l := by
  intro l
  induction l with
  | nil => intro _; rfl
  | cons x xs ih =>
    intro h
    have hx : ¬x = '\xa0' := fun hx => h (hx ▸ List.mem_cons_self x xs)
    show (if x = '\xa0' then ' ' else x) :: nbspPass xs = x :: xs
    rw [if_neg hx, ih (fun hm => h (List.mem_cons_of_mem x hm))]

theorem isHeaderStart_head {c : Char} {xs : List Char}
    (h : isHeaderStart (c :: xs) = true) : c = 'h' := by
  cases xs with
  | nil => exact absurd (show (false : Bool) = true from h) Bool.false_ne_true
  | cons d rest =>
    cases rest with
    | nil => exact absurd (show (false : Bool) = true from h) Bool.false_ne_true
    | cons e rest2 =>
      simp only [isHeaderStart, Bool.and_eq_true, decide_eq_true_eq] at h
      exact h.1.1

theorem mem_headerPass {c : Char} : ∀ {l : List Char}, c ∈ headerPass l → c ∈ l := by
  intro l
  induction l using headerPass.induct with
  | case1 => simp [headerPass]
  | case2 x xs hh ih =>
    intro hm
    rw [headerPass, if_pos hh] at hm
    have h1 : c ∈ xs.drop 2 :=
      ((xs.drop 2).dropWhile_sublist isWs).subset (ih hm)
    exact List.mem_cons_of_mem x ((xs.drop_sublist 2).subset h1)
  | case3 x xs hh ih =>
    intro hm
    rcases List.mem_cons.mp (by rwa [headerPass, if_neg hh] at hm) with h | h
    · exact h ▸ List.mem_cons_self x xs
    · exact List.mem_cons_of_mem x (ih h)

theorem headerPass_id : ∀ {l : List Char}, 'h' ∉ l → headerPass l = l := by
  intro l h
  induction l using headerPass.induct with
  | case1 => simp [headerPass]
  | case2 x xs hh ih =>
    exact absurd ((isHeaderStart_head hh) ▸ List.mem_cons_self x xs) h
  | case3 x xs hh ih =>
    rw [headerPass, if_neg hh, ih (fun hm => h (List.mem_cons_of_mem x hm))]

theorem cons_eq_head {c d : Char} {l m : List Char} (h : c :: l = d :: m) :
    c = d := by
  simpa using congrArg List.headI h

theorem code1Match_head {c : Char} {xs : List Char}
    (h : code1Match (c :: xs) = true) : c = '\x7b' := by
  unfold code1Match at h
  rw [Bool.and_eq_true] at h
  have h1 := of_decide_eq_true h.1
  rw [show (c :: xs).take 6 = c :: xs.take 5 from rfl] at h1
  exact cons_eq_head h1

theorem mem_code1Pass {c : Char} :
    ∀ {l : List Char}, c ∈ code1Pass l → c ∈ l ∨ c ∈ fenceRepl := by
  intro l
  induction l using code1Pass.induct with
  | case1 => simp [code1Pass]
  | case2 x xs hh ih =>
    intro hm
    rw [code1Pass, if_pos hh] at hm
    rcases List.mem_append.mp hm with h | h
    · exact Or.inr h
    · rcases ih h with h | h
      · refine Or.inl ?_
        have s1 : List.Sublist
            ((((x :: xs).drop 6).dropWhile (fun ch => ch ≠ '\x7d')).drop 1)
            (x :: xs) :=
          ((List.drop_sublist 1 _).trans
            (List.dropWhile_sublist _)).trans (List.drop_sublist 6 _)
        exact s1.subset h
      · exact Or.inr h
  | case3 x xs hh ih =>
    intro hm
    rcases List.mem_cons.mp (by rwa [code1Pass, if_neg hh] at hm) with h | h
    · exact Or.inl (h ▸ List.mem_cons_self x xs)
    · rcases ih h with h | h
      · exact Or.inl (List.mem_cons_of_mem x h)
      · exact Or.inr h

theorem code1Pass_id : ∀ {l : List Char}, '\x7b' ∉ l → code1Pass l = l := by
  intro l h
  induction l using code1Pass.induct with
  | case1 => simp [code1Pass]
  | case2 x xs hh ih =>
    exact absurd ((code1Match_head hh) ▸ List.mem_cons_self x xs) h
  | case3 x xs hh ih =>
    rw [code1Pass, if_neg hh, ih (fun hm => h (List.mem_cons_of_mem x hm))]

theorem mem_code2Pass {c : Char} :
    ∀ {l : List Char}, c ∈ code2Pass l → c ∈ l ∨ c ∈ fenceRepl := by
  intro l
  induction l using code2Pass.induct with
  | case1 => simp [code2Pass]
  | case2 x xs hh ih =>
    intro hm
    rw [code2Pass, if_pos hh] at hm
    rcases List.mem_append.mp hm with h | h
    · exact Or.inr h
    · rcases ih h with h | h
      · exact Or.inl ((List.drop_sublist 6 (x :: xs)).subset h)
      · exact Or.inr h
  | case3 x xs hh ih =>
    intro hm
    rcases List.mem_cons.mp (by rwa [code2Pass, if_neg hh] at hm) with h | h
    · exact Or.inl (h ▸ List.mem_cons_self x xs)
    · rcases ih h with h | h
      · exact Or.inl (List.mem_cons_of_mem x h)
      · exact Or.inr h

theorem code2Pass_id : ∀ {l : List Char}, '\x7b' ∉ l → code2Pass l = l := by
  intro l h
  induction l using code2Pass.induct with
  | case1 => simp [code2Pass]
  | case2 x xs hh ih =>
    have h1 := of_decide_eq_true hh
    rw [show (x :: xs).take 6 = x :: xs.take 5 from rfl] at h1
    exact absurd ((cons_eq_head h1) ▸ List.mem_cons_self x xs) h
  | case3 x xs hh ih =>
    rw [code2Pass, if_neg hh, ih (fun hm => h (List.mem_cons_of_mem x hm))]

theorem mem_quotePass {c : Char} :
    ∀ {l : List Char}, c ∈ quotePass l → c ∈ l ∨ c ∈ ['\n', '>', ' '] := by
  intro l
  induction l using quotePass.induct with
  | case1 => simp [quotePass]
  | case2 x xs hh ih =>
    intro hm
    rw [quotePass, if_pos hh] at hm
    rcases List.mem_cons.mp hm with h | hm
    · exact Or.inr (by simp [h])
    rcases List.mem_cons.mp hm with h | hm
    · exact Or.inr (by simp [h])
    rcases List.mem_cons.mp hm with h | hm
    · exact Or.inr (by simp [h])
    rcases ih hm with h | h
    · exact Or.inl ((List.drop_sublist 7 (x :: xs)).subset h)
    · exact Or.inr h
  | case3 x xs hh ih =>
    intro hm
    rcases List.mem_cons.mp (by rwa [quotePass, if_neg hh] at hm) with h | h
    · exact Or.inl (h ▸ List.mem_cons_self x xs)
    · rcases ih h with h | h
      · exact Or.inl (List.mem_cons_of_mem x h)
      · exact Or.inr h

theorem quotePass_id : ∀ {l : List Char}, '\x7b' ∉ l → quotePass l = l := by
  intro l h
  induction l using quotePass.induct with
  | case1 => simp [quotePass]
  | case2 x xs hh ih =>
    have h1 := of_decide_eq_true hh
    rw [show (x :: xs).take 7 = x :: xs.take 6 from rfl] at h1
    exact absurd ((cons_eq_head h1) ▸ List.mem_cons_self x xs) h
  | case3 x xs hh ih =>
    rw [quotePass, if_neg hh, ih (fun hm => h (List.mem_cons_of_mem x hm))]

theorem mem_noformatPass {c : Char} :
    ∀ {l : List Char}, c ∈ noformatPass l → c ∈ l ∨ c = '\n' := by
  intro l
  induction l using noformatPass.induct with
  | case1 => simp [noformatPass]
  | case2 x xs hh ih =>
    intro hm
    rw [noformatPass, if_pos hh] at hm
    rcases List.mem_cons.mp hm with h | hm
    · exact Or.inr h
    rcases ih hm with h | h
    · exact Or.inl ((List.drop_sublist 10 (x :: xs)).subset h)
    · exact Or.inr h
  | case3 x xs hh ih =>
    intro hm
    rcases List.mem_cons.mp (by rwa [noformatPass, if_neg hh] at hm) with h | h
    · exact Or.inl (h ▸ List.mem_cons_self x xs)
    · rcases ih h with h | h
      · exact Or.inl (List.mem_cons_of_mem x h)
      · exact Or.inr h

theorem noformatPass_id : ∀ {l : List Char}, '\x7b' ∉ l → noformatPass l = l := by
  intro l h
  induction l using noformatPass.induct with
  | case1 => simp [noformatPass]
  | case2 x xs hh ih =>
    have h1 := of_decide_eq_true hh
    rw [show (x :: xs).take 10 = x :: xs.take 9 from rfl] at h1
    exact absurd ((cons_eq_head h1) ▸ List.mem_cons_self x xs) h
  | case3 x xs hh ih =>
    rw [noformatPass, if_neg hh, ih (fun hm => h (List.mem_cons_of_mem x hm))]

theorem mem_spacePass {c : Char} : ∀ {l : List Char}, c ∈ spacePass l → c ∈ l := by
  intro l
  induction l using spacePass.induct with
  | case1 => simp [spacePass]
  | case2 d => simp [spacePass]
  | case3 a b xs hab ih =>
    intro hm
    rw [spacePass, if_pos hab] at hm
    exact List.mem_cons_of_mem a (ih hm)
  | case4 a b xs hab ih =>
    intro hm
    rcases List.mem_cons.mp (by rwa [spacePass, if_neg hab] at hm) with h | h
    · exact h ▸ List.mem_cons_self a _
    · exact List.mem_cons_of_mem a (ih h)

theorem spacePass_head : ∀ (l : List Char), (spacePass l).head? = l.head? := by
  intro l
  induction l using spacePass.induct with
  | case1 => rfl
  | case2 d => rfl
  | case3 a b xs hab ih =>
    rw [spacePass, if_pos hab, ih]
    simp [hab.1, hab.2]
  | case4 a b xs hab ih =>
    rw [spacePass, if_neg hab]
    rfl

theorem spacePass_id : ∀ {l : List Char},
    hasPair ' ' ' ' l = false → spacePass l = l := by
  intro l h
  induction l using spacePass.induct with
  | case1 => rfl
  | case2 d => rfl
  | case3 a b xs hab ih =>
    exfalso
    rw [hasPair_cons, Bool.or_eq_false_iff] at h
    have h1 := h.1
    simp [hab.1, hab.2] at h1
  | case4 a b xs hab ih =>
    rw [spacePass, if_neg hab, ih (hasPair_tail h)]

theorem spacePass_noPair : ∀ (l : List Char),
    hasPair ' ' ' ' (spacePass l) = false := by
  intro l
  induction l using spacePass.induct with
  | case1 => rfl
  | case2 d => rfl
  | case3 a b xs hab ih =>
    rw [spacePass, if_pos hab]
    exact ih
  | case4 a b xs hab ih =>
    rw [spacePass, if_neg hab, hasPair_cons, Bool.or_eq_false_iff]
    refine ⟨?_, ih⟩
    rw [spacePass_head]
    by_cases ha : a = ' '
    · have hb : ¬b = ' ' := fun hb => hab ⟨ha, hb⟩
      simp [hb]
    · simp [ha]

theorem mem_nlPass {c : Char} : ∀ {l : List Char}, c ∈ nlPass l → c ∈ l := by
  intro l
  induction l using nlPass.induct with
  | case1 => simp [nlPass]
  | case2 d => simp [nlPass]
  | case3 d e => simp [nlPass]
  | case4 a b d xs habc ih =>
    intro hm
    rw [nlPass, if_pos habc] at hm
    exact List.mem_cons_of_mem a (ih hm)
  | case5 a b d xs habc ih =>
    intro hm
    rcases List.mem_cons.mp (by rwa [nlPass, if_neg habc] at hm) with h | h
    · exact h ▸ List.mem_cons_self a _
    · exact List.mem_cons_of_mem a (ih h)

theorem nlPass_head : ∀ (l : List Char), (nlPass l).head? = l.head? := by
  intro l
  induction l using nlPass.induct with
  | case1 => rfl
  | case2 d => rfl
  | case3 d e => rfl
  | case4 a b d xs habc ih =>
    rw [nlPass, if_pos habc, ih]
    simp [habc.1, habc.2.1]
  | case5 a b d xs habc ih =>
    rw [nlPass, if_neg habc]
    rfl

theorem nlPass_take2 : ∀ (l : List Char), (nlPass l).take 2 = l.take 2 := by
  intro l
  induction l using nlPass.induct with
  | case1 => rfl
  | case2 d => rfl
  | case3 d e => rfl
  | case4 a b d xs habc ih =>
    rw [nlPass, if_pos habc, ih,
        show (b :: d :: xs).take 2 = [b, d] from rfl,
        show (a :: b :: d :: xs).take 2 = [a, b] from rfl,
        habc.1, habc.2.1, habc.2.2]
  | case5 a b d xs habc ih =>
    rw [nlPass, if_neg habc,
        show (a :: nlPass (b :: d :: xs)).take 2
          = a :: (nlPass (b :: d :: xs)).take 1 from rfl]
    have h0 := congrArg (List.take 1) (ih)
    rw [List.take_take, List.take_take] at h0
    norm_num at h0
    rw [h0]
    rfl

theorem nlPass_id : ∀ {l : List Char},
    hasTriple '\n' l = false → nlPass l = l := by
  intro l h
  induction l using nlPass.induct with
  | case1 => rfl
  | case2 d => rfl
  | case3 d e => rfl
  | case4 a b d xs habc ih =>
    exfalso
    rw [hasTriple_cons, Bool.or_eq_false_iff] at h
    have h1 := h.1
    simp [habc.1, habc.2.1, habc.2.2,
      show (b :: d :: xs).take 2 = [b, d] from rfl] at h1
  | case5 a b d xs habc ih =>
    rw [nlPass, if_neg habc, ih (hasTriple_tail h)]

theorem nlPass_noTriple : ∀ (l : List Char),
    hasTriple '\n' (nlPass l) = false := by
  intro l
  induction l using nlPass.induct with
  | case1 => rfl
  | case2 d => rfl
  | case3 d e => rfl
  | case4 a b d xs habc ih =>
    rw [nlPass, if_pos habc]
    exact ih
  | case5 a b d xs habc ih =>
    rw [nlPass, if_neg habc, hasTriple_cons, Bool.or_eq_false_iff]
    refine ⟨?_, ih⟩
    rw [nlPass_take2, show (b :: d :: xs).take 2 = [b, d] from rfl]
    by_cases ha : a = '\n'
    · have hne : ¬([b, d] = ['\n', '\n']) := by
        intro he
        simp only [List.cons.injEq, and_true] at he
        exact habc ⟨ha, he.1, he.2⟩
      simp [hne]
    · simp [ha]

theorem nlPass_noPair (a b : Char) : ∀ {l : List Char},
    hasPair a b l = false → hasPair a b (nlPass l) = false := by
  intro l h
  induction l using nlPass.induct with
  | case1 => exact h
  | case2 d => exact h
  | case3 d e => exact h
  | case4 x y z xs habc ih =>
    rw [nlPass, if_pos habc]
    exact ih (hasPair_tail h)
  | case5 x y z xs habc ih =>
    rw [nlPass, if_neg habc, hasPair_cons, Bool.or_eq_false_iff]
    refine ⟨?_, ih (hasPair_tail h)⟩
    rw [nlPass_head]
    rw [hasPair_cons, Bool.or_eq_false_iff] at h
    exact h.1

theorem stripPass_eq (l : List Char) :
    stripPass l = (l.dropWhile isWs).rdropWhile isWs := rfl

theorem stripPass_part (l : List Char) : stripPass l <:+: l := by
  rw [stripPass_eq]
  exact (List.rdropWhile_prefix isWs (l.dropWhile isWs)).isInfix.trans
    (List.dropWhile_suffix isWs).isInfix

theorem stripPass_idem (l : List Char) :
    stripPass (stripPass l) = stripPass l := by
  rw [stripPass_eq, stripPass_eq]
  have hd : ((l.dropWhile isWs).rdropWhile isWs).dropWhile isWs
      = (l.dropWhile isWs).rdropWhile isWs := by
    cases hs : (l.dropWhile isWs).rdropWhile isWs with
    | nil => rfl
    | cons x s2 =>
      have hpre := List.rdropWhile_prefix isWs (l.dropWhile isWs)
      rw [hs] at hpre
      obtain ⟨t, ht⟩ := hpre
      have hne : l.dropWhile isWs ≠ [] := by
        rw [← ht]; simp
      have hh9 : (l.dropWhile isWs).head? = some x := by
        rw [← ht, List.cons_append]
        rfl
      have hhead := List.head?_eq_head hne
      have hx : isWs x = false := by
        have hnot := List.head_dropWhile_not isWs l hne
        rwa [Option.some.inj (hhead.symm.trans hh9)] at hnot
      rw [List.dropWhile_cons, hx]
      simp
  rw [hd, List.rdropWhile_idempotent]

/-! ### One-pass output invariants of the normalization pipeline -/

theorem normalizeDescription_of_ne_nil (m : List Char) (h : m ≠ []) :
    normalizeDescription m
      = stripPass (nlPass (spacePass (noformatPass (quotePass (code2Pass
          (code1Pass (headerPass (nbspPass (crlfPass m))))))))) := by
  unfold normalizeDescription
  rw [if_neg h]

theorem chain_no_char {c : Char} (hc2 : c ≠ '\n') (hc3 : c ≠ btick)
    (hc4 : c ≠ '>') (hc5 : c ≠ ' ') {m : List Char} (h : c ∉ m) :
    c ∉ stripPass (nlPass (spacePass (noformatPass (quotePass (code2Pass
      (code1Pass (headerPass m))))))) := by
  have g2 : c ∉ headerPass m := fun hm => h (mem_headerPass hm)
  have g3 : c ∉ code1Pass (headerPass m) := by
    intro hm
    rcases mem_code1Pass hm with hx | hx
    · exact g2 hx
    · simp only [fenceRepl, List.mem_cons, List.not_mem_nil, or_false] at hx
      rcases hx with hx | hx | hx | hx | hx <;> first
        | exact hc2 hx
        | exact hc3 hx
  have g4 : c ∉ code2Pass (code1Pass (headerPass m)) := by
    intro hm
    rcases mem_code2Pass hm with hx | hx
    · exact g3 hx
    · simp only [fenceRepl, List.mem_cons, List.not_mem_nil, or_false] at hx
      rcases hx with hx | hx | hx | hx | hx <;> first
        | exact hc2 hx
        | exact hc3 hx
  have g5 : c ∉ quotePass (code2Pass (code1Pass (headerPass m))) := by
    intro hm
    rcases mem_quotePass hm with hx | hx
    · exact g4 hx
    · simp only [List.mem_cons, List.not_mem_nil, or_false] at hx
      rcases hx with hx | hx | hx <;> first
        | exact hc2 hx
        | exact hc4 hx
        | exact hc5 hx
  have g6 : c ∉ noformatPass (quotePass (code2Pass (code1Pass (headerPass m)))) := by
    intro hm
    rcases mem_noformatPass hm with hx | hx
    · exact g5 hx
    · exact hc2 hx
  have g7 : c ∉ spacePass (noformatPass (quotePass (code2Pass
      (code1Pass (headerPass m))))) := fun hm => g6 (mem_spacePass hm)
  have g8 : c ∉ nlPass (spacePass (noformatPass (quotePass (code2Pass
      (code1Pass (headerPass m)))))) := fun hm => g7 (mem_nlPass hm)
  exact fun hm => g8 ((stripPass_part _).sublist.subset hm)

theorem normalize_no_char {c : Char} (hc1 : c ≠ ' ') (hc2 : c ≠ '\n')
    (hc3 : c ≠ btick) (hc4 : c ≠ '>') {l : List Char} (h : c ∉ l) :
    c ∉ normalizeDescription l := by
  by_cases hl : l = []
  · rw [hl]
    simp [normalizeDescription]
  · rw [normalizeDescription_of_ne_nil l hl]
    have h0 : c ∉ crlfPass l := fun hm => h (mem_crlfPass hm)
    have h1 : c ∉ nbspPass (crlfPass l) := by
      intro hm
      rcases mem_nbspPass hm with hx | hx
      · exact h0 hx
      · exact hc1 hx
    exact chain_no_char hc2 hc3 hc4 hc1 h1

theorem normalize_no_nbsp (l : List Char) : '\xa0' ∉ normalizeDescription l := by
  by_cases hl : l = []
  · rw [hl]
    simp [normalizeDescription]
  · rw [normalizeDescription_of_ne_nil l hl]
    exact chain_no_char (by decide) (by decide) (by decide) (by decide)
      nbspPass_no_nbsp

theorem normalize_noPairSpace (l : List Char) :
    hasPair ' ' ' ' (normalizeDescription l) = false := by
  by_cases hl : l = []
  · rw [hl]
    simp [normalizeDescription, hasPair]
  · rw [normalizeDescription_of_ne_nil l hl]
    have hx := nlPass_noPair ' ' ' '
      (spacePass_noPair (noformatPass (quotePass (code2Pass
        (code1Pass (headerPass (nbspPass (crlfPass l))))))))
    cases hval : hasPair ' ' ' ' (stripPass (nlPass (spacePass (noformatPass
        (quotePass (code2Pass (code1Pass (headerPass (nbspPass (crlfPass l)))))))))) with
    | false => rfl
    | true =>
      have hcon := hasPair_mono_part (stripPass_part _) hval
      rw [hx] at hcon
      exact hcon.symm

theorem normalize_noTripleNl (l : List Char) :
    hasTriple '\n' (normalizeDescription l) = false := by
  by_cases hl : l = []
  · rw [hl]
    simp [normalizeDescription, hasTriple]
  · rw [normalizeDescription_of_ne_nil l hl]
    have hx := nlPass_noTriple (spacePass (noformatPass (quotePass (code2Pass
        (code1Pass (headerPass (nbspPass (crlfPass l))))))))
    cases hval : hasTriple '\n' (stripPass (nlPass (spacePass (noformatPass
        (quotePass (code2Pass (code1Pass (headerPass (nbspPass (crlfPass l)))))))))) with
    | false => rfl
    | true =>
      have hcon := hasTriple_mono_part (stripPass_part _) hval
      rw [hx] at hcon
      exact hcon.symm

theorem normalize_strip_fixed (l : List Char) :
    stripPass (normalizeDescription l) = normalizeDescription l := by
  by_cases hl : l = []
  · rw [hl]
    simp [normalizeDescription, stripPass]
  · rw [normalizeDescription_of_ne_nil l hl, stripPass_idem]

/-! ### Claim C3 -/

/-- C3, counterexample: `_normalize_description` is not idempotent.  On the
input `"a\r\r\nb"` the first pass rewrites the sole `"\r\n"` occurrence and
thereby glues the preceding `'\r'` to the produced `'\n'`, yielding
`"a\r\nb"`; a second pass rewrites again, yielding `"a\nb"`. -/
theorem claim_C3_counterexample :
    normalizeDescription (normalizeDescription ['a', '\r', '\r', '\n', 'b'])
      ≠ normalizeDescription ['a', '\r', '\r', '\n', 'b'] := by
  have e1 : normalizeDescription ['a', '\r', '\r', '\n', 'b']
      = ['a', '\r', '\n', 'b'] := by
    simp +decide [normalizeDescription, crlfPass, nbspPass, headerPass,
      isHeaderStart, code1Pass, code1Match, code2Pass, quotePass, noformatPass,
      spacePass, nlPass, stripPass, isWs, wsChars, headerDigits,
      List.dropWhile_cons]
  have e2 : normalizeDescription ['a', '\r', '\n', 'b'] = ['a', '\n', 'b'] := by
    simp +decide [normalizeDescription, crlfPass, nbspPass, headerPass,
      isHeaderStart, code1Pass, code1Match, code2Pass, quotePass, noformatPass,
      spacePass, nlPass, stripPass, isWs, wsChars, headerDigits,
      List.dropWhile_cons]
  rw [e1, e2]
  decide

/-- C3 (amended): description normalization is idempotent on every input
that contains no carriage return, no letter `h` (so no `h1.`-`h6.` header
markup), and no opening brace (so no `\x7bcode\x7d` / `\x7bquote\x7d` /
`\x7bnoformat\x7d` markup).  On such inputs one pass leaves no collapsible
space runs, no 3-newline runs, no surrounding whitespace and no markup, so
a second pass changes nothing. -/
theorem claim_C3_normalize_idempotent_amended (l : List Char)
    (h1 : '\r' ∉ l) (h2 : 'h' ∉ l) (h3 : '\x7b' ∉ l) :
    normalizeDescription (normalizeDescription l) = normalizeDescription l := by
  by_cases hl : normalizeDescription l = []
  · rw [hl]
    simp [normalizeDescription]
  · have hyr : '\r' ∉ normalizeDescription l :=
      normalize_no_char (by decide) (by decide) (by decide) (by decide) h1
    have hyh : 'h' ∉ normalizeDescription l :=
      normalize_no_char (by decide) (by decide) (by decide) (by decide) h2
    have hyb : '\x7b' ∉ normalizeDescription l :=
      normalize_no_char (by decide) (by decide) (by decide) (by decide) h3
    rw [normalizeDescription_of_ne_nil _ hl,
        crlfPass_id hyr,
        nbspPass_id (normalize_no_nbsp l),
        headerPass_id hyh,
        code1Pass_id hyb, code2Pass_id hyb, quotePass_id hyb,
        noformatPass_id hyb,
        spacePass_id (normalize_noPairSpace l),
        nlPass_id (normalize_noTripleNl l),
        normalize_strip_fixed l]

/-- C3 witness: the amended idempotence applied to the concrete description
`"Test  x(\n\n\n)y "`. -/
theorem claim_C3_amended_witness :
    normalizeDescription (normalizeDescription
        ['T', 'e', 's', 't', ' ', ' ', 'x', '(', '\n', '\n', '\n', ')', 'y', ' '])
      = normalizeDescription
        ['T', 'e', 's', 't', ' ', ' ', 'x', '(', '\n', '\n', '\n', ')', 'y', ' '] :=
  claim_C3_normalize_idempotent_amended _ (by decide) (by decide) (by decide)

/-! ### Helper lemmas about the search pipeline -/

theorem searchInner_ok_query {env : SearchEnv} {args : SearchArgs}
    {oc : SearchOutcome} (h : searchInner env args = .ok oc)
    (hne : oc ≠ .emptyCorpus) :
    ∃ entries, env.queryResult = .ok entries ∧
      searchCore (clampTopK args.top_k)
        (clampThreshold args.similarity_threshold) entries = oc := by
  unfold searchInner at h
  split at h
  · simp at h
  · split at h
    · simp at h
    · split at h
      · simp only [Except.ok.injEq] at h
        exact absurd h.symm hne
      · split at h
        · simp at h
        · split at h
          · simp at h
          · rename_i entries hq
            simp only [Except.ok.injEq] at h
            exact ⟨entries, hq, h⟩

theorem searchCore_matchesFound_inv {tk : ℤ} {thr : ℚ} {entries : List Entry}
    {rs : List FR} (h : searchCore tk thr entries = .matchesFound rs) :
    entries ≠ [] ∧ filteredOf thr entries ≠ [] ∧
      rs = (sortFR (filteredOf thr entries)).take tk.toNat := by
  unfold searchCore at h
  by_cases he : entries = []
  · rw [if_pos he] at h; simp at h
  · rw [if_neg he] at h
    by_cases hf : filteredOf thr entries = []
    · rw [if_pos hf] at h
      cases hb : bestCand (candidatesOf entries) with
      | none => rw [hb] at h; simp at h
      | some b => rw [hb] at h; simp at h
    · rw [if_neg hf] at h
      simp only [SearchOutcome.matchesFound.injEq] at h
      exact ⟨he, hf, h.symm⟩

theorem searchCore_belowThreshold_inv {tk : ℤ} {thr : ℚ} {entries : List Entry}
    {b : FR} (h : searchCore tk thr entries = .belowThreshold b) :
    entries ≠ [] ∧ filteredOf thr entries = [] ∧
      bestCand (candidatesOf entries) = some b := by
  unfold searchCore at h
  by_cases he : entries = []
  · rw [if_pos he] at h; simp at h
  · rw [if_neg he] at h
    by_cases hf : filteredOf thr entries = []
    · rw [if_pos hf] at h
      cases hb : bestCand (candidatesOf entries) with
      | none => rw [hb] at h; simp at h
      | some b2 =>
        rw [hb] at h
        simp only [SearchOutcome.belowThreshold.injEq] at h
        exact ⟨he, hf, congrArg some h⟩
    · rw [if_neg hf] at h; simp at h

theorem bestCand_mem : ∀ {l : List FR} {b : FR}, bestCand l = some b → b ∈ l := by
  intro l
  induction l with
  | nil => intro b h; simp [bestCand] at h
  | cons c rest ih =>
    intro b h
    unfold bestCand at h
    cases hb : bestCand rest with
    | none =>
      rw [hb] at h
      simp only [Option.some.injEq] at h
      exact h ▸ List.mem_cons_self c rest
    | some b2 =>
      rw [hb] at h
      simp only [Option.some.injEq] at h
      by_cases hle : b2.similarity ≤ c.similarity
      · rw [if_pos hle] at h
        exact h ▸ List.mem_cons_self c rest
      · rw [if_neg hle] at h
        exact h ▸ List.mem_cons_of_mem c (ih hb)

theorem bestCand_none_iff : ∀ {l : List FR}, bestCand l = none ↔ l = [] := by
  intro l
  cases l with
  | nil => simp [bestCand]
  | cons c rest =>
    unfold bestCand
    cases bestCand rest with
    | none => simp
    | some b2 => simp

theorem bestCand_isMax : ∀ {l : List FR} {b : FR}, bestCand l = some b →
    ∀ x ∈ l, x.similarity ≤ b.similarity := by
  intro l
  induction l with
  | nil => intro b h; simp [bestCand] at h
  | cons c rest ih =>
    intro b h x hx
    unfold bestCand at h
    cases hb : bestCand rest with
    | none =>
      rw [hb] at h
      simp only [Option.some.injEq] at h
      have hrest : rest = [] := bestCand_none_iff.mp hb
      rcases List.mem_cons.mp hx with hxc | hxr
      · rw [hxc, ← h]
      · rw [hrest] at hxr
        simp at hxr
    | some b2 =>
      rw [hb] at h
      simp only [Option.some.injEq] at h
      by_cases hle : b2.similarity ≤ c.similarity
      · rw [if_pos hle] at h
        rcases List.mem_cons.mp hx with hxc | hxr
        · rw [hxc, ← h]
        · exact le_trans (ih hb x hxr) (h ▸ hle)
      · rw [if_neg hle] at h
        rcases List.mem_cons.mp hx with hxc | hxr
        · rw [hxc, ← h]
          exact le_of_lt (lt_of_not_le hle)
        · exact h ▸ ih hb x hxr

theorem bestCand_some_of_ne_nil {l : List FR} (h : l ≠ []) :
    ∃ b, bestCand l = some b := by
  cases hb : bestCand l with
  | none => exact absurd (bestCand_none_iff.mp hb) h
  | some b => exact ⟨b, rfl⟩

/-- Every surviving result is one of the retrieved candidates. -/
theorem mem_matches_candidates {tk : ℤ} {thr : ℚ} {entries : List Entry}
    {rs : List FR} (h : searchCore tk thr entries = .matchesFound rs)
    {r : FR} (hr : r ∈ rs) : r ∈ candidatesOf entries := by
  obtain ⟨-, -, hrs⟩ := searchCore_matchesFound_inv h
  have h1 : r ∈ sortFR (filteredOf thr entries) :=
    (List.take_sublist _ _).subset (hrs ▸ hr)
  have h2 : r ∈ filteredOf thr entries :=
    (List.mem_insertionSort sortRel).mp h1
  exact (List.mem_filter.mp h2).1

/-- The stability kernel: filtering an ordered insertion by one key value. -/
theorem filter_orderedInsert_adj (x : FR) (q : ℚ) :
    ∀ m : List FR,
      (List.orderedInsert sortRel x m).filter (fun c => decide (adjScore c = q))
        = if adjScore x = q
          then x :: m.filter (fun c => decide (adjScore c = q))
          else m.filter (fun c => decide (adjScore c = q)) := by
  intro m
  induction m with
  | nil =>
    by_cases hx : adjScore x = q <;>
      simp [List.orderedInsert, List.filter_cons, hx]
  | cons b m ih =>
    unfold List.orderedInsert
    by_cases hr : sortRel x b
    · rw [if_pos hr]
      by_cases hx : adjScore x = q <;>
        simp [List.filter_cons, hx]
    · rw [if_neg hr]
      have hbx : adjScore x < adjScore b := lt_of_not_le hr
      by_cases hb : adjScore b = q
      · have hx : ¬adjScore x = q := fun hxe =>
          absurd (hxe.trans hb.symm) (ne_of_lt hbx)
        simp [List.filter_cons, hb, hx, ih]
      · by_cases hx : adjScore x = q <;>
          simp [List.filter_cons, hb, hx, ih]

/-- Stability of the boost ranking: for every adjusted-score value, the
subsequence of candidates holding that value is unchanged by the sort. -/
theorem sortFR_stable (l : List FR) (q : ℚ) :
    (sortFR l).filter (fun c => decide (adjScore c = q))
      = l.filter (fun c => decide (adjScore c = q)) := by
  induction l with
  | nil => rfl
  | cons x l ih =>
    show (List.orderedInsert sortRel x (sortFR l)).filter _ = _
    rw [filter_orderedInsert_adj]
    by_cases hx : adjScore x = q <;>
      simp [List.filter_cons, hx, ih]

/-- Runs with all collaborator calls succeeding: the count is non-zero, the
query returns the given aligned entries. -/
theorem searchInner_eq_core {env : SearchEnv} {args : SearchArgs} {n : ℕ}
    {entries : List Entry}
    (h1 : env.resources = .ok ()) (h2 : env.countResult = .ok n) (h3 : n ≠ 0)
    (h4 : env.embedResult (searchQuery args) = .ok ())
    (h5 : env.queryResult = .ok entries) :
    searchInner env args
      = .ok (searchCore (clampTopK args.top_k)
          (clampThreshold args.similarity_threshold) entries) := by
  unfold searchInner
  simp only [h1, h2, h4, h5, if_neg h3]

/-- A successful matches outcome always lists at least one result. -/
theorem matches_nonempty {env : SearchEnv} {args : SearchArgs} {rs : List FR}
    (h : searchInner env args = .ok (.matchesFound rs)) :
    ∃ hd tl, rs = hd :: tl := by
  obtain ⟨entries, -, hcore⟩ := searchInner_ok_query h (fun hx => nomatch hx)
  obtain ⟨-, hfne, hrs⟩ := searchCore_matchesFound_inv hcore
  cases hsf : sortFR (filteredOf (clampThreshold args.similarity_threshold) entries) with
  | nil =>
    exfalso
    have hlen := List.length_insertionSort sortRel
      (filteredOf (clampThreshold args.similarity_threshold) entries)
    unfold sortFR at hsf
    rw [hsf] at hlen
    exact hfne (List.length_eq_zero.mp hlen.symm)
  | cons hd tl2 =>
    have h1 : (1 : ℤ) ≤ clampTopK args.top_k :=
      le_min (le_max_left 1 _) (by norm_num)
    have htk : 1 ≤ (clampTopK args.top_k).toNat := Int.toNat_le_toNat h1
    cases hn : (clampTopK args.top_k).toNat with
    | zero => omega
    | succ m =>
      refine ⟨hd, tl2.take m, ?_⟩
      rw [hrs, hsf, hn, List.take_succ_cons]

/-! ### Concrete fixtures -/

def metaStatus (st : String) : Meta :=
  ⟨none, none, some st, none, none, none, none, none, none, none, none⟩

def entryOf (id : String) (d : ℚ) (st : String) : Entry :=
  ⟨id, d, metaStatus st, ""⟩

/-- An environment whose collaborators all succeed and whose index holds
exactly the given entries. -/
def envOf (entries : List Entry) : SearchEnv :=
  ⟨.ok (), .ok entries.length, fun _ => .ok (), .ok entries⟩

/-- The source's default arguments: `top_k=2`, `similarity_threshold=0.45`. -/
def argsDefault : SearchArgs := ⟨"failure", none, none, 2, 0.45⟩

/-- Modelled from the spec: the recommendation band as the spec words it,
driven by the best single result's raw (unboosted) similarity with the cut
points `0.90` and `0.80`. -/
def bandSpec (rawSim : ℚ) : RecBand :=
  if 9 / 10 ≤ rawSim then .nearIdentical
  else if 8 / 10 ≤ rawSim then .highSim
  else .moderate

theorem bandOf_eq_bandSpec (s : ℚ) : bandOf s = bandSpec s := by
  unfold bandOf bandSpec
  split_ifs <;> first
    | rfl
    | linarith

/-! ### Claims about the similarity search engine -/

/-- C1: the above-threshold candidates are sorted in descending order of
`similarity + 0.10·[is_open]` (first conjunct: every matches result list is
pairwise so ordered); candidates with equal adjusted scores retain their
retrieval order (second conjunct: the sort is stable — filtering by any
adjusted-score value commutes with it); and on the three concrete
raw-similarity configurations 0.80-closed vs 0.75-open, 0.90-closed vs
0.70-open, and 0.82-"Closed" vs 0.70-"New", the full pipeline ranks them
open-first, closed-first, closed-first respectively. -/
theorem claim_C1_open_boost_ranking :
    (∀ (env : SearchEnv) (args : SearchArgs) (rs : List FR),
       searchInner env args = .ok (.matchesFound rs) → rs.Pairwise sortRel) ∧
    (∀ (l : List FR) (q : ℚ),
       (sortFR l).filter (fun c => decide (adjScore c = q))
         = l.filter (fun c => decide (adjScore c = q))) ∧
    searchInner (envOf [entryOf "CLOSED-80" (2/5) "Closed",
                        entryOf "OPEN-75" (1/2) "New"]) argsDefault
      = .ok (.matchesFound [mkFR (entryOf "OPEN-75" (1/2) "New"),
                            mkFR (entryOf "CLOSED-80" (2/5) "Closed")]) ∧
    searchInner (envOf [entryOf "CLOSED-90" (1/5) "Closed",
                        entryOf "OPEN-70" (3/5) "New"]) argsDefault
      = .ok (.matchesFound [mkFR (entryOf "CLOSED-90" (1/5) "Closed"),
                            mkFR (entryOf "OPEN-70" (3/5) "New")]) ∧
    searchInner (envOf [entryOf "CLOSED-82" (9/25) "Closed",
                        entryOf "OPEN-70" (3/5) "New"]) argsDefault
      = .ok (.matchesFound [mkFR (entryOf "CLOSED-82" (9/25) "Closed"),
                            mkFR (entryOf "OPEN-70" (3/5) "New")]) := by
  refine ⟨?_, sortFR_stable, by with_unfolding_all decide,
    by with_unfolding_all decide, by with_unfolding_all decide⟩
  intro env args rs h
  obtain ⟨entries, -, hcore⟩ := searchInner_ok_query h (fun hx => nomatch hx)
  obtain ⟨-, -, hrs⟩ := searchCore_matchesFound_inv hcore
  have hs : List.Pairwise sortRel
      (sortFR (filteredOf (clampThreshold args.similarity_threshold) entries)) :=
    List.sorted_insertionSort sortRel _
  exact hrs ▸ List.Pairwise.sublist (List.take_sublist _ _) hs

/-- C1 witness: the sortedness conjunct applied to the first concrete
configuration. -/
theorem claim_C1_witness :
    List.Pairwise sortRel [mkFR (entryOf "OPEN-75" (1/2) "New"),
                           mkFR (entryOf "CLOSED-80" (2/5) "Closed")] :=
  claim_C1_open_boost_ranking.1
    (envOf [entryOf "CLOSED-80" (2/5) "Closed", entryOf "OPEN-75" (1/2) "New"])
    argsDefault _ (by with_unfolding_all decide)

/-- C2: whatever the collaborators do, the tool returns a string: when the
body raises (any collaborator error), the caller receives exactly the
descriptive error string of line 745 with the exception text appended, and
when the body completes, the caller receives its rendered outcome — never a
propagated exception (the tool's codomain is `String`, and both conjuncts
exhaust `searchInner`'s possible results). -/
theorem claim_C2_never_raises (env : SearchEnv) (args : SearchArgs) :
    (∀ e, searchInner env args = .error e →
       search_similar_jira_issues env args
         = "Error searching for similar Jira issues: " ++ e) ∧
    (∀ oc, searchInner env args = .ok oc →
       search_similar_jira_issues env args
         = render (clampThreshold args.similarity_threshold) oc) := by
  constructor
  · intro e h
    unfold search_similar_jira_issues
    rw [h]
  · intro oc h
    unfold search_similar_jira_issues
    rw [h]

/-- C2 witness: a raising embedding provider yields the error string. -/
theorem claim_C2_witness :
    search_similar_jira_issues
        ⟨.ok (), .ok 5, fun _ => .error "boom", .ok []⟩ argsDefault
      = "Error searching for similar Jira issues: boom" :=
  (claim_C2_never_raises ⟨.ok (), .ok 5, fun _ => .error "boom", .ok []⟩
    argsDefault).1 "boom" (by decide)

/-- C4: when every distance the index reports lies in `[0, 2]` (the spec's
stated assumption: L2 distance over unit-norm vectors), every similarity
the tool derives — in a matches response and in the closest-match
diagnostic alike — lies in `[0, 1]`. -/
theorem claim_C4_similarity_bounds (env : SearchEnv) (args : SearchArgs)
    (entries : List Entry) (hq : env.queryResult = .ok entries)
    (hd : ∀ e ∈ entries, 0 ≤ e.distance ∧ e.distance ≤ 2) :
    (∀ rs, searchInner env args = .ok (.matchesFound rs) →
       ∀ r ∈ rs, 0 ≤ r.similarity ∧ r.similarity ≤ 1) ∧
    (∀ b, searchInner env args = .ok (.belowThreshold b) →
       0 ≤ b.similarity ∧ b.similarity ≤ 1) := by
  have hcand : ∀ r ∈ candidatesOf entries, 0 ≤ r.similarity ∧ r.similarity ≤ 1 := by
    intro r hr
    obtain ⟨e, he, rfl⟩ := List.mem_map.mp hr
    obtain ⟨hd0, hd2⟩ := hd e he
    refine ⟨?_, ?_⟩ <;> simp only [mkFR, simOfDist] <;> linarith
  constructor
  · intro rs h r hr
    obtain ⟨entries2, hq2, hcore⟩ := searchInner_ok_query h (fun hx => nomatch hx)
    have hee : entries2 = entries := by
      have := hq.symm.trans hq2
      simpa using this.symm
    exact hcand r (hee ▸ mem_matches_candidates hcore hr)
  · intro b h
    obtain ⟨entries2, hq2, hcore⟩ := searchInner_ok_query h (fun hx => nomatch hx)
    have hee : entries2 = entries := by
      have := hq.symm.trans hq2
      simpa using this.symm
    obtain ⟨-, -, hb⟩ := searchCore_belowThreshold_inv hcore
    exact hcand b (hee ▸ bestCand_mem hb)

/-- C4 witness: a one-entry index with distance 1 (similarity 0.5). -/
theorem claim_C4_witness :
    (∀ rs, searchInner (envOf [entryOf "A-1" 1 "New"]) argsDefault
        = .ok (.matchesFound rs) → ∀ r ∈ rs, 0 ≤ r.similarity ∧ r.similarity ≤ 1) ∧
    (∀ b, searchInner (envOf [entryOf "A-1" 1 "New"]) argsDefault
        = .ok (.belowThreshold b) → 0 ≤ b.similarity ∧ b.similarity ≤ 1) :=
  claim_C4_similarity_bounds (envOf [entryOf "A-1" 1 "New"]) argsDefault
    [entryOf "A-1" 1 "New"] rfl (by with_unfolding_all decide)

/-- C5: in every matches response, every listed result's similarity reaches
the clamped threshold, and the clamped threshold itself lies in `[0, 1]`. -/
theorem claim_C5_threshold_respected (env : SearchEnv) (args : SearchArgs)
    (rs : List FR) (h : searchInner env args = .ok (.matchesFound rs)) :
    (0 ≤ clampThreshold args.similarity_threshold ∧
      clampThreshold args.similarity_threshold ≤ 1) ∧
    ∀ r ∈ rs, clampThreshold args.similarity_threshold ≤ r.similarity := by
  refine ⟨⟨le_max_left 0 _, max_le (by norm_num) (min_le_left 1 _)⟩, ?_⟩
  intro r hr
  obtain ⟨entries, -, hcore⟩ := searchInner_ok_query h (fun hx => nomatch hx)
  obtain ⟨-, -, hrs⟩ := searchCore_matchesFound_inv hcore
  have h1 : r ∈ sortFR (filteredOf (clampThreshold args.similarity_threshold) entries) :=
    (List.take_sublist _ _).subset (hrs ▸ hr)
  have h2 := (List.mem_insertionSort sortRel).mp h1
  unfold filteredOf at h2
  exact of_decide_eq_true (List.mem_filter.mp h2).2

/-- C5 witness: the threshold property at a concrete two-entry corpus. -/
theorem claim_C5_witness :
    (0 ≤ clampThreshold argsDefault.similarity_threshold ∧
      clampThreshold argsDefault.similarity_threshold ≤ 1) ∧
    ∀ r ∈ [mkFR (entryOf "OPEN-75" (1/2) "New"),
           mkFR (entryOf "CLOSED-80" (2/5) "Closed")],
      clampThreshold argsDefault.similarity_threshold ≤ r.similarity :=
  claim_C5_threshold_respected
    (envOf [entryOf "CLOSED-80" (2/5) "Closed", entryOf "OPEN-75" (1/2) "New"])
    argsDefault _ (by with_unfolding_all decide)

/-- C6: a zero-entry index makes the tool return the distinct empty-corpus
instruction — for every behaviour of the embedding provider and of the
query interface, including raising ones, so neither is consulted — and this
is not an exception (the body completes with the `emptyCorpus` outcome) and
not a zero-result success (the text differs from the no-results message). -/
theorem claim_C6_empty_corpus (env : SearchEnv) (args : SearchArgs)
    (h1 : env.resources = .ok ()) (h2 : env.countResult = .ok 0) :
    searchInner env args = .ok .emptyCorpus ∧
    search_similar_jira_issues env args
      = "No Jira issues found in the database. Please run jira_sync_to_chroma.py to populate the database with existing issues." ∧
    search_similar_jira_issues env args
      ≠ "No similar issues found in the database." := by
  have hinner : searchInner env args = .ok .emptyCorpus := by
    unfold searchInner
    simp [h1, h2]
  refine ⟨hinner, ?_, ?_⟩
  · unfold search_similar_jira_issues
    rw [hinner]
    rfl
  · unfold search_similar_jira_issues
    rw [hinner]
    show emptyCorpusMsg ≠ "No similar issues found in the database."
    decide

/-- C6 witness: the empty index short-circuits even when both the embedding
provider and the query interface would raise. -/
theorem claim_C6_witness :
    searchInner ⟨.ok (), .ok 0, fun _ => .error "down", .error "down"⟩
        argsDefault = .ok .emptyCorpus ∧
    search_similar_jira_issues
        ⟨.ok (), .ok 0, fun _ => .error "down", .error "down"⟩ argsDefault
      = "No Jira issues found in the database. Please run jira_sync_to_chroma.py to populate the database with existing issues." ∧
    search_similar_jira_issues
        ⟨.ok (), .ok 0, fun _ => .error "down", .error "down"⟩ argsDefault
      ≠ "No similar issues found in the database." :=
  claim_C6_empty_corpus ⟨.ok (), .ok 0, fun _ => .error "down", .error "down"⟩
    argsDefault rfl rfl

/-- C7: with a non-empty retrieval in which no candidate reaches the
clamped threshold, the tool produces the below-threshold diagnostic — a
distinct outcome constructor from the matches format — carrying the single
best candidate (a retrieved candidate whose similarity no other candidate
exceeds, itself below the threshold), whose metadata key, similarity
percentage and truncated summary line 666-667 then renders. -/
theorem claim_C7_below_threshold_diagnostic (env : SearchEnv)
    (args : SearchArgs) (entries : List Entry) (n : ℕ)
    (h1 : env.resources = .ok ()) (h2 : env.countResult = .ok n) (h3 : n ≠ 0)
    (h4 : env.embedResult (searchQuery args) = .ok ())
    (h5 : env.queryResult = .ok entries) (h6 : entries ≠ [])
    (h7 : ∀ c ∈ candidatesOf entries,
        c.similarity < clampThreshold args.similarity_threshold) :
    ∃ b, searchInner env args = .ok (.belowThreshold b) ∧
      b ∈ candidatesOf entries ∧
      (∀ c ∈ candidatesOf entries, c.similarity ≤ b.similarity) ∧
      b.similarity < clampThreshold args.similarity_threshold ∧
      search_similar_jira_issues env args
        = belowThresholdMsg (clampThreshold args.similarity_threshold) b := by
  have hcne : candidatesOf entries ≠ [] := by
    simp only [candidatesOf, ne_eq, List.map_eq_nil_iff]
    exact h6
  obtain ⟨b, hb⟩ := bestCand_some_of_ne_nil hcne
  have hfilt : filteredOf (clampThreshold args.similarity_threshold) entries = [] := by
    unfold filteredOf
    rw [List.filter_eq_nil_iff]
    intro c hc
    simp only [decide_eq_true_eq]
    exact not_le.mpr (h7 c hc)
  have hcore : searchCore (clampTopK args.top_k)
      (clampThreshold args.similarity_threshold) entries = .belowThreshold b := by
    unfold searchCore
    rw [if_neg h6, if_pos hfilt, hb]
  have hinner := searchInner_eq_core h1 h2 h3 h4 h5
  rw [hcore] at hinner
  refine ⟨b, hinner, bestCand_mem hb, bestCand_isMax hb,
    h7 b (bestCand_mem hb), ?_⟩
  unfold search_similar_jira_issues
  rw [hinner]
  rfl

/-- C7 witness: best similarity 0.30 (distance 1.4) against the default
threshold 0.45. -/
theorem claim_C7_witness :
    ∃ b, searchInner (envOf [entryOf "BEST-30" (7/5) "New"]) argsDefault
        = .ok (.belowThreshold b) ∧
      b ∈ candidatesOf [entryOf "BEST-30" (7/5) "New"] ∧
      (∀ c ∈ candidatesOf [entryOf "BEST-30" (7/5) "New"],
        c.similarity ≤ b.similarity) ∧
      b.similarity < clampThreshold argsDefault.similarity_threshold ∧
      search_similar_jira_issues (envOf [entryOf "BEST-30" (7/5) "New"]) argsDefault
        = belowThresholdMsg (clampThreshold argsDefault.similarity_threshold) b :=
  claim_C7_below_threshold_diagnostic
    (envOf [entryOf "BEST-30" (7/5) "New"]) argsDefault
    [entryOf "BEST-30" (7/5) "New"] 1 rfl rfl (by decide) rfl rfl (by decide)
    (by with_unfolding_all decide)

/-- C8: the recommendation band of every matches response is selected from
the first listed result's raw similarity — the code's percentage cut points
`>= 90` / `>= 80` agree with the spec's `0.90` / `0.80` on the raw score
(first conjunct), every matches response picks its band that way (second
conjunct), and an open result with raw similarity 0.85 whose boosted score
is 0.95 still receives the high-similarity band, not the near-identical
one (third conjunct: the boost does not feed the band). -/
theorem claim_C8_recommendation_band :
    (∀ s : ℚ, bandOf s = bandSpec s) ∧
    (∀ (env : SearchEnv) (args : SearchArgs) (rs : List FR),
       searchInner env args = .ok (.matchesFound rs) →
       ∃ hd tl, rs = hd :: tl ∧ chosenBand rs = bandSpec hd.similarity) ∧
    (chosenBand [mkFR (entryOf "OPEN-85" (3/10) "New")] = .highSim ∧
      9 / 10 ≤ adjScore (mkFR (entryOf "OPEN-85" (3/10) "New"))) := by
  refine ⟨bandOf_eq_bandSpec, ?_, by with_unfolding_all decide,
    by with_unfolding_all decide⟩
  intro env args rs h
  obtain ⟨hd, tl, hrs⟩ := matches_nonempty h
  refine ⟨hd, tl, hrs, ?_⟩
  rw [hrs]
  show bandOf hd.similarity = bandSpec hd.similarity
  exact bandOf_eq_bandSpec hd.similarity

/-- C8 witness: the band selection applied to the 0.85-raw / 0.95-boosted
single-result response. -/
theorem claim_C8_witness :
    ∃ hd tl, ([mkFR (entryOf "OPEN-85" (3/10) "New")] : List FR) = hd :: tl ∧
      chosenBand [mkFR (entryOf "OPEN-85" (3/10) "New")]
        = bandSpec hd.similarity :=
  claim_C8_recommendation_band.2.1 (envOf [entryOf "OPEN-85" (3/10) "New"])
    argsDefault _ (by with_unfolding_all decide)

/-! ### Claims about the corpus synchronizer -/

theorem runBatches_cons_embedErr {env : SyncEnv} {bn : ℕ} {e : String}
    {batch : List SyncIssue} {rest : List (List SyncIssue)} {idx : ChromaIndex}
    (h : env.embedErr bn = some e) :
    runBatches env bn (batch :: rest) idx
      = ⟨idx, some e, [.embedCall (batch.map create_searchable_text)]⟩ := by
  simp only [runBatches, h]

theorem runBatches_cons_upsertErr {env : SyncEnv} {bn : ℕ} {e : String}
    {batch : List SyncIssue} {rest : List (List SyncIssue)} {idx : ChromaIndex}
    (h1 : env.embedErr bn = none) (h2 : env.upsertErr bn = some e) :
    runBatches env bn (batch :: rest) idx
      = ⟨idx, some e, [.embedCall (batch.map create_searchable_text),
                       .upsertCall (batch.map (·.key))]⟩ := by
  simp only [runBatches, h1, h2]

theorem runBatches_cons_ok {env : SyncEnv} {bn : ℕ}
    {batch : List SyncIssue} {rest : List (List SyncIssue)} {idx : ChromaIndex}
    (h1 : env.embedErr bn = none) (h2 : env.upsertErr bn = none) :
    runBatches env bn (batch :: rest) idx
      = ⟨(runBatches env (bn + 1) rest (applyBatch env idx batch)).index,
         (runBatches env (bn + 1) rest (applyBatch env idx batch)).err,
         .embedCall (batch.map create_searchable_text)
           :: .upsertCall (batch.map (·.key))
           :: (runBatches env (bn + 1) rest (applyBatch env idx batch)).ops⟩ := by
  simp only [runBatches, h1, h2]

/-- The batch loop either commits every batch, or commits exactly the
batches before the first failing one and surfaces that batch's error. -/
theorem runBatches_spec (env : SyncEnv) :
    ∀ (bl : List (List SyncIssue)) (bn : ℕ) (idx : ChromaIndex),
      ∃ j, j ≤ bl.length ∧
        (runBatches env bn bl idx).index
            = (bl.take j).foldl (applyBatch env) idx ∧
        (((runBatches env bn bl idx).err = none ∧ j = bl.length) ∨
          (∃ e, (runBatches env bn bl idx).err = some e ∧ j < bl.length ∧
            (env.embedErr (bn + j) = some e ∨
              (env.embedErr (bn + j) = none ∧
                env.upsertErr (bn + j) = some e)))) := by
  intro bl
  induction bl with
  | nil =>
    intro bn idx
    exact ⟨0, Nat.le_refl 0, by simp [runBatches], Or.inl ⟨rfl, rfl⟩⟩
  | cons batch rest ih =>
    intro bn idx
    cases he : env.embedErr bn with
    | some e =>
      refine ⟨0, Nat.zero_le _, ?_, Or.inr ⟨e, ?_, Nat.succ_pos _, ?_⟩⟩
      · rw [runBatches_cons_embedErr he]
        rfl
      · rw [runBatches_cons_embedErr he]
      · rw [Nat.add_zero]
        exact Or.inl he
    | none =>
      cases hu : env.upsertErr bn with
      | some e =>
        refine ⟨0, Nat.zero_le _, ?_, Or.inr ⟨e, ?_, Nat.succ_pos _, ?_⟩⟩
        · rw [runBatches_cons_upsertErr he hu]
          rfl
        · rw [runBatches_cons_upsertErr he hu]
        · rw [Nat.add_zero]
          exact Or.inr ⟨he, hu⟩
      | none =>
        obtain ⟨j, hj, hidx, herr⟩ := ih (bn + 1) (applyBatch env idx batch)
        refine ⟨j + 1, Nat.succ_le_succ hj, ?_, ?_⟩
        · rw [runBatches_cons_ok he hu, List.take_succ_cons, List.foldl_cons]
          exact hidx
        · rcases herr with ⟨hnone, hjlen⟩ | ⟨e, hsome, hlt, hcond⟩
          · refine Or.inl ⟨?_, by rw [hjlen]; rfl⟩
            rw [runBatches_cons_ok he hu]
            exact hnone
          · refine Or.inr ⟨e, ?_, Nat.succ_lt_succ hlt, ?_⟩
            · rw [runBatches_cons_ok he hu]
              exact hsome
            · rw [show bn + (j + 1) = (bn + 1) + j by omega]
              exact hcond

/-- C9: for every record list and positive batch size, the sync applies
each fixed-size batch atomically: some prefix of the batch sequence is
fully committed (each committed batch upserted whole, via
`applyBatch`), and either all batches committed with no error, or the
first uncommitted batch's embedding or upsert call raised and its error
propagates, aborting the remaining batches. -/
theorem claim_C9_batch_atomicity (env : SyncEnv) (issues : List SyncIssue)
    (bs : ℕ) (idx : ChromaIndex) (hbs : 0 < bs) :
    ∃ j, j ≤ (chunksOf bs issues).length ∧
      (sync_to_chromadb env issues bs idx).index
          = ((chunksOf bs issues).take j).foldl (applyBatch env) idx ∧
      (((sync_to_chromadb env issues bs idx).err = none ∧
          j = (chunksOf bs issues).length) ∨
        (∃ e, (sync_to_chromadb env issues bs idx).err = some e ∧
          j < (chunksOf bs issues).length ∧
          (env.embedErr j = some e ∨
            (env.embedErr j = none ∧ env.upsertErr j = some e)))) := by
  have hbs1 : bs ≠ 0 := Nat.pos_iff_ne_zero.mp hbs
  unfold sync_to_chromadb
  by_cases hi : issues = []
  · rw [if_pos hi]
    refine ⟨0, ?_, rfl, Or.inl ⟨rfl, ?_⟩⟩ <;> simp [hi, chunksOf]
  · rw [if_neg hi]
    have hspec := runBatches_spec env (chunksOf bs issues) 0 idx
    simpa using hspec

/-- C9 witness: a one-record sync in batches of two with no collaborator
failure. -/
theorem claim_C9_witness :
    ∃ j, j ≤ (chunksOf 2 [⟨"K-1", "s", "d", "New", "Bug", "c", "u", [], [],
        "Unresolved", "Major", "url"⟩]).length ∧
      (sync_to_chromadb ⟨fun _ => [1], fun _ => none, fun _ => none⟩
          [⟨"K-1", "s", "d", "New", "Bug", "c", "u", [], [],
            "Unresolved", "Major", "url"⟩] 2 []).index
          = ((chunksOf 2 [⟨"K-1", "s", "d", "New", "Bug", "c", "u", [], [],
              "Unresolved", "Major", "url"⟩]).take j).foldl
              (applyBatch ⟨fun _ => [1], fun _ => none, fun _ => none⟩) [] ∧
      (((sync_to_chromadb ⟨fun _ => [1], fun _ => none, fun _ => none⟩
            [⟨"K-1", "s", "d", "New", "Bug", "c", "u", [], [],
              "Unresolved", "Major", "url"⟩] 2 []).err = none ∧
          j = (chunksOf 2 [⟨"K-1", "s", "d", "New", "Bug", "c", "u", [], [],
              "Unresolved", "Major", "url"⟩]).length) ∨
        (∃ e, (sync_to_chromadb ⟨fun _ => [1], fun _ => none, fun _ => none⟩
              [⟨"K-1", "s", "d", "New", "Bug", "c", "u", [], [],
                "Unresolved", "Major", "url"⟩] 2 []).err = some e ∧
          j < (chunksOf 2 [⟨"K-1", "s", "d", "New", "Bug", "c", "u", [], [],
              "Unresolved", "Major", "url"⟩]).length ∧
          ((fun (_ : ℕ) => (none : Option String)) j = some e ∨
            ((fun (_ : ℕ) => (none : Option String)) j = none ∧
              (fun (_ : ℕ) => (none : Option String)) j = some e)))) :=
  claim_C9_batch_atomicity ⟨fun _ => [1], fun _ => none, fun _ => none⟩
    [⟨"K-1", "s", "d", "New", "Bug", "c", "u", [], [],
      "Unresolved", "Major", "url"⟩] 2 [] (by decide)

/-- C10: syncing an empty record list is a no-op at the index boundary: it
returns with the index unchanged, no error, and an empty collaborator-call
trace — no embedding request and no upsert were issued. -/
theorem claim_C10_empty_sync_noop (env : SyncEnv) (bs : ℕ) (idx : ChromaIndex) :
    sync_to_chromadb env [] bs idx = ⟨idx, none, []⟩ := by
  unfold sync_to_chromadb
  rw [if_pos rfl]

end TestTriage
